import Mathlib

/-!
Verification development for the budget-aware condensing core of folder2md4llms:
`analyzers/progressive_condenser.py` (progressive condenser) and
`utils/smart_chunker.py` (smart chunker).

Modelling conventions.
Python `int` is modelled by `Int`, `float` true division by exact division in `ℚ`.
A Python call that can raise (`ZeroDivisionError` in
`_determine_condensing_level`) is modelled by an `Option` result, `none`
standing for the raised exception.  The external token estimator
(`utils/token_utils.estimate_tokens_from_text`, not part of the provided
sources) is a parameter `est : String → Int` of every definition that uses it;
by the spec it maps text to a non-negative integer.  The per-language
condensing strategies dispatch on the file suffix and call the Python `ast`,
`re`, `json` and `yaml` libraries; they are abstracted as a parameter
`strat` (the theorems hold for every strategy, hence for the real ones).
-/

/-- Modelled from the spec: `PriorityLevel` (from `analyzers/priority_analyzer.py`,
which is not among the provided sources).  The spec defines it as an ordered
enumeration CRITICAL > HIGH > MEDIUM > LOW whose exact ordinal ordering must be
preserved. -/
inductive PriorityLevel
  | CRITICAL
  | HIGH
  | MEDIUM
  | LOW
deriving DecidableEq

/-- Modelled from the spec: ordinal position of a priority, CRITICAL highest.
`p1.ord > p2.ord` renders the spec's `p1 > p2`. -/
def PriorityLevel.ord : PriorityLevel → Nat
  | .CRITICAL => 3
  | .HIGH => 2
  | .MEDIUM => 1
  | .LOW => 0

/-- Modelled from the spec: the Python enum member name, as used for the
`"priority"` entry of the condensing info record. -/
def PriorityLevel.pname : PriorityLevel → String
  | .CRITICAL => "CRITICAL"
  | .HIGH => "HIGH"
  | .MEDIUM => "MEDIUM"
  | .LOW => "LOW"

namespace CondensingLevel

/-- `CondensingLevel.NONE` from the source: full content preservation. -/
def NONE : String := "none"

/-- `CondensingLevel.LIGHT` from the source. -/
def LIGHT : String := "light"

/-- `CondensingLevel.MODERATE` from the source. -/
def MODERATE : String := "moderate"

/-- `CondensingLevel.HEAVY` from the source. -/
def HEAVY : String := "heavy"

/-- `CondensingLevel.MAXIMUM` from the source. -/
def MAXIMUM : String := "maximum"

end CondensingLevel

/-- The ordered `levels` list used by `_increase_condensing_level` and
`_decrease_condensing_level` in the source. -/
def condensingLevels : List String :=
  [CondensingLevel.NONE, CondensingLevel.LIGHT, CondensingLevel.MODERATE,
   CondensingLevel.HEAVY, CondensingLevel.MAXIMUM]

/-- Aggressiveness rank of a level: its index in the source's ordered
`levels` list (5 for a string that is not a level). -/
def levelRank (level : String) : Nat :=
  condensingLevels.findIdx (fun l => l == level)

/-- Embedding of `_increase_condensing_level`: step one level up in the
`levels` list, clamped at the top; an unknown level string (Python
`ValueError`) yields MODERATE. -/
def increaseCondensingLevel (current_level : String) : String :=
  match condensingLevels.findIdx? (fun l => l == current_level) with
  | some ix =>
      condensingLevels.getD (min (ix + 1) (condensingLevels.length - 1))
        CondensingLevel.MODERATE
  | none => CondensingLevel.MODERATE

/-- Embedding of `_decrease_condensing_level`: step one level down in the
`levels` list, clamped at the bottom; an unknown level string yields
MODERATE. -/
def decreaseCondensingLevel (current_level : String) : String :=
  match condensingLevels.findIdx? (fun l => l == current_level) with
  | some ix => condensingLevels.getD (ix - 1) CondensingLevel.MODERATE
  | none => CondensingLevel.MODERATE

/-- The `budget_usage_ratio` computed by `adjust_condensing_level`:
`token_budget_used / total_budget` when `total_budget > 0` and `0`
otherwise. -/
def usageOf (token_budget_used total_budget : Int) : ℚ :=
  if 0 < total_budget then (token_budget_used : ℚ) / (total_budget : ℚ) else 0

/-- Embedding of `adjust_condensing_level`: escalate one step above usage
0.8, de-escalate one step below 0.5, else keep the current level. -/
def adjustCondensingLevel (current_content current_level : String)
    (token_budget_used total_budget : Int) : String :=
  let usage : ℚ := usageOf token_budget_used total_budget
  if 8/10 < usage then increaseCondensingLevel current_level
  else if usage < 5/10 then decreaseCondensingLevel current_level
  else current_level

/-- Body of `_determine_condensing_level` after the division: thresholds on
`compression_needed`, keyed by priority (CRITICAL 1.3/2.0/3.0, HIGH
1.5/2.5/4.0, other priorities 2.0/3.0). -/
def levelFromCompression (priority : PriorityLevel) (compression_needed : ℚ) : String :=
  if priority = PriorityLevel.CRITICAL then
    if compression_needed ≤ 13/10 then CondensingLevel.LIGHT
    else if compression_needed ≤ 2 then CondensingLevel.MODERATE
    else if compression_needed ≤ 3 then CondensingLevel.HEAVY
    else CondensingLevel.MAXIMUM
  else if priority = PriorityLevel.HIGH then
    if compression_needed ≤ 3/2 then CondensingLevel.LIGHT
    else if compression_needed ≤ 5/2 then CondensingLevel.MODERATE
    else if compression_needed ≤ 4 then CondensingLevel.HEAVY
    else CondensingLevel.MAXIMUM
  else
    if compression_needed ≤ 2 then CondensingLevel.MODERATE
    else if compression_needed ≤ 3 then CondensingLevel.HEAVY
    else CondensingLevel.MAXIMUM

/-- Embedding of `_determine_condensing_level`.  `none` models the Python
`ZeroDivisionError` raised by `estimated_tokens / available_tokens` when
`available_tokens == 0` (reached whenever the guard
`available_tokens >= estimated_tokens` fails). -/
def determineCondensingLevel (estimated_tokens available_tokens : Int)
    (priority : PriorityLevel) : Option String :=
  if estimated_tokens ≤ available_tokens then some CondensingLevel.NONE
  else if available_tokens = 0 then none
  else some (levelFromCompression priority
    ((estimated_tokens : ℚ) / (available_tokens : ℚ)))

/-- The level-selection threshold table exactly as the spec words it
(section 4.1): CRITICAL — LIGHT ≤ 1.3, MODERATE ≤ 2.0, HEAVY ≤ 3.0, else
MAXIMUM; HIGH — LIGHT ≤ 1.5, MODERATE ≤ 2.5, HEAVY ≤ 4.0, else MAXIMUM;
MEDIUM/LOW — starts at MODERATE ≤ 2.0, HEAVY ≤ 3.0, else MAXIMUM.  Stated
separately from the source embedding so that claim C4 can compare the two. -/
def specLevelTable (priority : PriorityLevel) (c : ℚ) : String :=
  match priority with
  | .CRITICAL =>
      if c ≤ 13/10 then CondensingLevel.LIGHT
      else if c ≤ 2 then CondensingLevel.MODERATE
      else if c ≤ 3 then CondensingLevel.HEAVY
      else CondensingLevel.MAXIMUM
  | .HIGH =>
      if c ≤ 3/2 then CondensingLevel.LIGHT
      else if c ≤ 5/2 then CondensingLevel.MODERATE
      else if c ≤ 4 then CondensingLevel.HEAVY
      else CondensingLevel.MAXIMUM
  | .MEDIUM =>
      if c ≤ 2 then CondensingLevel.MODERATE
      else if c ≤ 3 then CondensingLevel.HEAVY
      else CondensingLevel.MAXIMUM
  | .LOW =>
      if c ≤ 2 then CondensingLevel.MODERATE
      else if c ≤ 3 then CondensingLevel.HEAVY
      else CondensingLevel.MAXIMUM

/-- The condensing info dictionary built by `condense_with_budget`.  The
early whitespace return builds only the `"level"` and `"tokens_saved"`
entries; the absent keys are modelled by `none`.  The `compression` field
models the `"compression_ratio"` entry. -/
structure CondensingInfo where
  level : String
  tokens_saved : Int
  original_tokens : Option Int := none
  final_tokens : Option Int := none
  compression : Option ℚ := none
  priority : Option String := none
deriving DecidableEq

/-- The mutable `self.stats` of `ProgressiveCondenser`; the level histogram
dictionary is modelled as an association list. -/
structure CondenserStats where
  files_processed : Int
  tokens_saved : Int
  condensing_levels_used : List (String × Nat)
deriving DecidableEq

/-- The stats of a fresh `ProgressiveCondenser` (its `__init__`). -/
def statsInit : CondenserStats := ⟨0, 0, []⟩

/-- Dictionary update `d[k] = d.get(k, 0) + 1` on the association-list
model of the level histogram. -/
def bumpLevelCount (m : List (String × Nat)) (k : String) : List (String × Nat) :=
  match m.find? (fun p => p.1 == k) with
  | some _ => m.map (fun p => if p.1 == k then (p.1, p.2 + 1) else p)
  | none => m ++ [(k, 1)]

/-- Python's `not content.strip()` test: true when every character of the
content is whitespace (so the stripped content is empty).  Stated
structurally so that concrete instances evaluate by kernel reduction. -/
def isBlank (s : String) : Bool := s.data.all (fun c => c.isWhitespace)

/-- Embedding of `_apply_condensing`: level NONE returns the content
unchanged; otherwise the language dispatch on the file suffix runs, which we
abstract as the strategy parameter `strat content suffix level priority`. -/
def applyCondensing (strat : String → String → String → PriorityLevel → String)
    (content suffix level : String) (priority : PriorityLevel) : String :=
  if level = CondensingLevel.NONE then content
  else strat content suffix level priority

/-- Embedding of `condense_with_budget`.  Returns the condensed text, the
info record and the updated instance stats; `none` models a raised
`ZeroDivisionError` (see `determineCondensingLevel`). -/
def condenseWithBudget (est : String → Int)
    (strat : String → String → String → PriorityLevel → String)
    (stats : CondenserStats) (content suffix : String) (available_tokens : Int)
    (priority : PriorityLevel) (estimated_tokens : Option Int) :
    Option (String × CondensingInfo × CondenserStats) :=
  if isBlank content then
    some (content, { level := CondensingLevel.NONE, tokens_saved := 0 }, stats)
  else
    let estimated := estimated_tokens.getD (est content)
    match determineCondensingLevel estimated available_tokens priority with
    | none => none
    | some target_level =>
      let condensed := applyCondensing strat content suffix target_level priority
      let final_tokens := est condensed
      let saved := estimated - final_tokens
      some (condensed,
        { level := target_level,
          tokens_saved := saved,
          original_tokens := some estimated,
          final_tokens := some final_tokens,
          compression := some (if 0 < estimated
            then (final_tokens : ℚ) / (estimated : ℚ) else 1),
          priority := some priority.pname },
        { files_processed := stats.files_processed + 1,
          tokens_saved := stats.tokens_saved + saved,
          condensing_levels_used :=
            bumpLevelCount stats.condensing_levels_used target_level })

/-- Modelled from the spec: a concrete instance of the external token
estimator (text to a non-negative integer, monotone with text length),
used to instantiate witnesses and counterexamples: the character count. -/
def estLen (s : String) : Int := (s.length : Int)

/-- A concrete instance of the abstract language-strategy parameter, used
only to instantiate witnesses and counterexamples (the claims' theorems are
quantified over every strategy). -/
def stratId : String → String → String → PriorityLevel → String :=
  fun content _ _ _ => content

/-!
Smart chunker (`utils/smart_chunker.py`).  Content is represented by its
list of lines: every chunking path of the source immediately splits the
input on newlines (`content.split("\n")`) and builds each chunk's content
by joining line lists (`"\n".join(...)`), so a chunk's `content` field here
is the list whose `joinLines` is the Python content string.  Enrichment
headers that themselves contain embedded newlines are kept as single list
elements, which joins to exactly the Python string.
-/

/-- Python `"\n".join`. -/
def joinLines (ls : List String) : String := String.intercalate "\n" ls

/-- A structural boundary `(start_line, end_line, boundary_type, name)`,
0-based inclusive lines, as produced by `_find_python_boundaries` and the
regex-based finders. -/
abbrev Boundary := Nat × Nat × String × String

/-- The lines `lines[start : end + 1]` of a boundary span. -/
def boundarySpan (lines : List String) (b : Boundary) : List String :=
  (lines.drop b.1).take (b.2.1 + 1 - b.1)

/-- Embedding of the `Chunk` dataclass.  `content` is the line list (see
the section comment); `estimated_tokens` defaults to `0` standing for the
dataclass's `None` default (every construction site of the source sets
it). -/
structure Chunk where
  content : List String
  chunk_id : Nat
  total_chunks : Nat
  start_line : Option Nat := none
  end_line : Option Nat := none
  context_info : Option String := none
  continuation_from : Option Nat := none
  continues_to : Option Nat := none
  estimated_tokens : Int := 0
  chunk_type : String := "content"
deriving DecidableEq

/-- Embedding of the `ChunkingStrategy` dataclass. -/
structure ChunkingStrategy where
  preserve_functions : Bool := true
  preserve_classes : Bool := true
  include_context_headers : Bool := true
  overlap_functions : Bool := true
  max_context_lines : Nat := 5
  min_chunk_size : Nat := 100

/-- Embedding of `_create_chunk`: build a chunk from accumulated lines
(the source's unused `priority` argument is dropped); `total_chunks` is 0
until the final backfill. -/
def createChunk (est : String → Int) (ls : List String) (chunk_id : Nat)
    (start_line end_line : Nat) : Chunk :=
  { content := ls, chunk_id := chunk_id, total_chunks := 0,
    start_line := some start_line, end_line := some end_line,
    estimated_tokens := est (joinLines ls) }

/-- The `context_info` label of an oversized-span sub-chunk. -/
def partLabel (boundary_type bname : String) (k : Nat) : String :=
  s!"{boundary_type} {bname} (part {k})"

/-- Loop state of `_split_large_boundary`. -/
structure SplitSt where
  subs : List Chunk
  cur : List String
  curTok : Int
  cid : Nat

/-- One iteration of the `_split_large_boundary` loop over
`boundary_lines[1:]`. -/
def splitStep (est : String → Int) (max_tokens : Int) (sig boundary_type bname : String)
    (scid start_line : Nat) (st : SplitSt) (line : String) : SplitSt :=
  let lt := est line
  if st.curTok + lt ≤ max_tokens then
    { st with cur := st.cur ++ [line], curTok := st.curTok + lt }
  else
    let chunk : Chunk :=
      { content := st.cur, chunk_id := st.cid, total_chunks := 0,
        start_line := some start_line,
        context_info := some (partLabel boundary_type bname (st.cid - scid + 1)),
        estimated_tokens := st.curTok }
    { subs := st.subs ++ [chunk], cur := [sig, line],
      curTok := est sig + lt, cid := st.cid + 1 }

/-- Embedding of `_split_large_boundary`: split an oversized span into
sub-chunks, re-seeding each new sub-chunk with the span's first
(signature) line. -/
def splitLargeBoundary (est : String → Int) (boundary_lines : List String)
    (max_tokens : Int) (start_chunk_id : Nat) (boundary_type bname : String)
    (start_line : Nat) : List Chunk :=
  let sig := boundary_lines.headD ""
  let st0 : SplitSt := ⟨[], [sig], est sig, start_chunk_id⟩
  let st := boundary_lines.tail.foldl
    (splitStep est max_tokens sig boundary_type bname start_chunk_id start_line) st0
  if st.cur.isEmpty then st.subs
  else st.subs ++
    [{ content := st.cur, chunk_id := st.cid, total_chunks := 0,
       start_line := some start_line,
       context_info := some (partLabel boundary_type bname (st.cid - start_chunk_id + 1)),
       estimated_tokens := est (joinLines st.cur) }]

/-- Loop state of `_create_chunks_with_boundaries`. -/
structure PackSt where
  chunks : List Chunk
  cur : List String
  curTok : Int
  cid : Nat
  lastLine : Nat

/-- The source's `if current_chunk_lines: chunks.append(...)` save of the
accumulated chunk, with `last_line_processed = i`. -/
def flushCur (est : String → Int) (st : PackSt) (i : Nat) : PackSt :=
  if st.cur.isEmpty then st
  else
    { chunks := st.chunks ++
        [createChunk est st.cur st.cid st.lastLine (st.lastLine + st.cur.length - 1)],
      cur := [], curTok := 0, cid := st.cid + 1, lastLine := i }

/-- The `while i < len(lines)` loop of `_create_chunks_with_boundaries`.
The fuel argument makes the recursion structural: `lines.length` fuel is
exactly enough because every iteration advances the line index by at least
one when each boundary satisfies `start ≤ end` (as all the source's
boundary finders guarantee); on a malformed boundary list the Python loop
would not terminate, while the fueled loop stops. -/
def packLoop (est : String → Int) (lines : List String) (boundaries : List Boundary)
    (max_tokens : Int) : Nat → Nat → PackSt → PackSt
  | 0, _, st => st
  | fuel + 1, i, st =>
    if i < lines.length then
      match boundaries.find? (fun b => b.1 == i) with
      | some b =>
        let bl := boundarySpan lines b
        let btok := est (joinLines bl)
        if st.curTok + btok ≤ max_tokens then
          packLoop est lines boundaries max_tokens fuel (b.2.1 + 1)
            { st with cur := st.cur ++ bl, curTok := st.curTok + btok }
        else if max_tokens < btok then
          let st1 := flushCur est st i
          let subs := splitLargeBoundary est bl max_tokens st1.cid b.2.2.1 b.2.2.2 b.1
          packLoop est lines boundaries max_tokens fuel (b.2.1 + 1)
            { chunks := st1.chunks ++ subs, cur := [], curTok := 0,
              cid := st1.cid + subs.length, lastLine := b.2.1 + 1 }
        else
          let st1 := flushCur est st i
          packLoop est lines boundaries max_tokens fuel (b.2.1 + 1)
            { st1 with cur := bl, curTok := btok }
      | none =>
        let line := lines.getD i ""
        let lt := est line
        if st.curTok + lt ≤ max_tokens then
          packLoop est lines boundaries max_tokens fuel (i + 1)
            { st with cur := st.cur ++ [line], curTok := st.curTok + lt }
        else
          let st1 := flushCur est st i
          packLoop est lines boundaries max_tokens fuel (i + 1)
            { st1 with cur := [line], curTok := lt }
    else st

/-- The final `if current_chunk_lines:` save after the packing loop. -/
def packFinish (est : String → Int) (st : PackSt) : List Chunk :=
  if st.cur.isEmpty then st.chunks
  else st.chunks ++
    [createChunk est st.cur st.cid st.lastLine (st.lastLine + st.cur.length - 1)]

/-- The `for chunk in chunks: chunk.total_chunks = total_chunks` backfill
loop shared by the packer and the generic chunker. -/
def backfillTotals (chunks : List Chunk) : List Chunk :=
  chunks.map (fun c => { c with total_chunks := chunks.length })

/--`_create_chunks_with_boundaries` up to and including the
`total_chunks` backfill — the chunks with their original, pre-enrichment
content. -/
def createChunksCore (est : String → Int) (lines : List String)
    (boundaries : List Boundary) (max_tokens : Int) : List Chunk :=
  backfillTotals (packFinish est
    (packLoop est lines boundaries max_tokens lines.length 0 ⟨[], [], 0, 1, 0⟩))

/-- Embedding of `_add_function_overlaps`: prepend continued-from /
continues markers for function or method boundaries that straddle a
chunk's line range (Python truthiness makes a `start_line` or `end_line`
of `None` or `0` skip the test). -/
def addFunctionOverlaps (est : String → Int) (chunks : List Chunk)
    (boundaries : List Boundary) : List Chunk :=
  chunks.map (fun c =>
    let overlapping := boundaries.filterMap (fun b =>
      if b.2.2.1 = "function" ∨ b.2.2.1 = "method" then
        let contFrom : Bool :=
          match c.start_line with
          | some s => decide (s ≠ 0 ∧ b.1 < s ∧ s ≤ b.2.1)
          | none => false
        let contTo : Bool :=
          match c.end_line with
          | some e => decide (e ≠ 0 ∧ b.1 ≤ e ∧ e < b.2.1)
          | none => false
        let bname := b.2.2.2
        if contFrom then some s!"# Continued from: def {bname}(...)"
        else if contTo then some s!"# Continues: def {bname}(...)"
        else none
      else none)
    let enhanced :=
      if overlapping.isEmpty then c.content else overlapping ++ [""] ++ c.content
    { c with content := enhanced, estimated_tokens := est (joinLines enhanced) })

/-- `_create_chunks_with_boundaries` as the source exposes it: the core
packer followed by the function-overlap pass when the strategy enables
it. -/
def createChunksWithBoundaries (est : String → Int) (strategy : ChunkingStrategy)
    (lines : List String) (boundaries : List Boundary) (max_tokens : Int) : List Chunk :=
  let chunks := createChunksCore est lines boundaries max_tokens
  if strategy.overlap_functions then addFunctionOverlaps est chunks boundaries
  else chunks

/-- Loop state of `_chunk_generic_content`. -/
structure GenSt where
  chunks : List Chunk
  cur : List String
  curTok : Int
  cid : Nat

/-- The `for i, line in enumerate(lines)` loop of
`_chunk_generic_content`. -/
def chunkGenericLoop (est : String → Int) (max_tokens : Int) :
    Nat → List String → GenSt → GenSt
  | _, [], st => st
  | i, line :: rest, st =>
    let lt := est line
    if st.curTok + lt ≤ max_tokens then
      chunkGenericLoop est max_tokens (i + 1) rest
        { st with cur := st.cur ++ [line], curTok := st.curTok + lt }
    else
      let st1 :=
        if st.cur.isEmpty then st
        else
          { chunks := st.chunks ++
              [{ content := st.cur, chunk_id := st.cid, total_chunks := 0,
                 start_line := some (i - st.cur.length), end_line := some (i - 1),
                 estimated_tokens := st.curTok }],
            cur := [], curTok := 0, cid := st.cid + 1 }
      chunkGenericLoop est max_tokens (i + 1) rest { st1 with cur := [line], curTok := lt }

/-- The final `if current_lines:` save of `_chunk_generic_content`. -/
def genFinish (est : String → Int) (lines : List String) (st : GenSt) : List Chunk :=
  if st.cur.isEmpty then st.chunks
  else st.chunks ++
    [{ content := st.cur, chunk_id := st.cid, total_chunks := 0,
       start_line := some (lines.length - st.cur.length),
       end_line := some (lines.length - 1),
       estimated_tokens := est (joinLines st.cur) }]

/-- Embedding of `_chunk_generic_content`: pure line-budget packing with no
boundaries, then the `total_chunks` backfill. -/
def chunkGeneric (est : String → Int) (lines : List String) (max_tokens : Int) :
    List Chunk :=
  backfillTotals (genFinish est lines (chunkGenericLoop est max_tokens 0 lines ⟨[], [], 0, 1⟩))

/-- Enrichment of one chunk by `add_continuation_context` (`n` is the
chunk count, `i` the 0-based position).  The header strings carry their
own embedded newlines exactly as the source's f-strings do. -/
def enrichChunk (est : String → Int) (fileName : String) (n i : Nat) (c : Chunk) : Chunk :=
  let header : String :=
    if 0 < i then
      s!"# Continuation of {fileName} (Part {i + 1}/{n})\n" ++
      (match c.continuation_from with
       | some k => if k ≠ 0 then s!"# Continued from Part {k}\n" else ""
       | none => "")
    else s!"# {fileName} (Part {i + 1}/{n})\n"
  let enhanced := [header] ++ c.content ++
    (if i < n - 1 then [s!"\n# Continues in Part {i + 2}/{n}..."] else [])
  { content := enhanced, chunk_id := c.chunk_id, total_chunks := c.total_chunks,
    start_line := c.start_line, end_line := c.end_line,
    context_info := some s!"Part {i + 1} of {n}",
    continuation_from := c.continuation_from, continues_to := c.continues_to,
    estimated_tokens := est (joinLines enhanced), chunk_type := c.chunk_type }

/-- Indexed traversal used by `add_continuation_context`. -/
def enrichList (est : String → Int) (fileName : String) (n : Nat) :
    Nat → List Chunk → List Chunk
  | _, [] => []
  | i, c :: rest => enrichChunk est fileName n i c :: enrichList est fileName n (i + 1) rest

/-- Embedding of `add_continuation_context`: single chunks pass through
unchanged; otherwise every chunk gains a part header and all but the last a
continuation footer. -/
def addContinuationContext (est : String → Int) (chunks : List Chunk)
    (fileName : String) : List Chunk :=
  if chunks.length ≤ 1 then chunks
  else enrichList est fileName chunks.length 0 chunks

/-- Embedding of `chunk_with_context`.  The language-specific boundary
discovery (Python `ast` for `.py`, regex scans for the JS/TS/Java
suffixes) calls external libraries and is abstracted as the `findB`
parameter; `parse_ok = false` models the `SyntaxError` fallback of the
`.py` path to generic chunking.  Unknown suffixes take the generic path. -/
def chunkWithContext (est : String → Int) (strategy : ChunkingStrategy)
    (suffix : String) (parse_ok : Bool) (findB : List String → List Boundary)
    (lines : List String) (fileName : String) (max_tokens : Int) : List Chunk :=
  if isBlank (joinLines lines) then []
  else
    let total := est (joinLines lines)
    if total ≤ max_tokens then
      [{ content := lines, chunk_id := 1, total_chunks := 1, estimated_tokens := total }]
    else
      let chunks :=
        if suffix = ".py" then
          if parse_ok then createChunksWithBoundaries est strategy lines (findB lines) max_tokens
          else chunkGeneric est lines max_tokens
        else if suffix = ".js" ∨ suffix = ".ts" ∨ suffix = ".jsx" ∨ suffix = ".tsx" then
          createChunksWithBoundaries est strategy lines (findB lines) max_tokens
        else if suffix = ".java" then
          createChunksWithBoundaries est strategy lines (findB lines) max_tokens
        else chunkGeneric est lines max_tokens
      if strategy.include_context_headers then addContinuationContext est chunks fileName
      else chunks

/-- Boolean test that `s` is an initial segment of `l`. -/
def leadsList : List String → List String → Bool
  | [], _ => true
  | _ :: _, [] => false
  | a :: s, b :: l => a == b && leadsList s l

/-- Boolean test that `s` occurs as a contiguous segment of `l`. -/
def hasSeg (s : List String) : List String → Bool
  | [] => s.isEmpty
  | a :: l2 => leadsList s (a :: l2) || hasSeg s l2

/-!
Theorems.  Helper lemmas come first, then for each claim its theorem and,
where needed, a witness and a counterexample.
-/

lemma determine_eq_some (estT avail : Int) (p : PriorityLevel)
    (h1 : avail < estT) (h2 : avail ≠ 0) :
    determineCondensingLevel estT avail p =
      some (levelFromCompression p ((estT : ℚ) / (avail : ℚ))) := by
  unfold determineCondensingLevel
  rw [if_neg (by omega), if_neg h2]

lemma levelFromCompression_crit_med (c : ℚ) :
    levelRank (levelFromCompression PriorityLevel.CRITICAL c) ≤
      levelRank (levelFromCompression PriorityLevel.MEDIUM c) := by
  simp only [levelFromCompression]
  norm_num
  split_ifs <;> first | decide | linarith

lemma levelFromCompression_high_med (c : ℚ) :
    levelRank (levelFromCompression PriorityLevel.HIGH c) ≤
      levelRank (levelFromCompression PriorityLevel.MEDIUM c) := by
  simp only [levelFromCompression]
  norm_num
  split_ifs <;> first | decide | linarith

lemma levelFromCompression_med_eq_low :
    levelFromCompression PriorityLevel.MEDIUM = levelFromCompression PriorityLevel.LOW := rfl

lemma levelFromCompression_mono (c : ℚ) (p1 p2 : PriorityLevel)
    (hp : p2.ord < p1.ord)
    (hx : ¬(p1 = PriorityLevel.CRITICAL ∧ p2 = PriorityLevel.HIGH)) :
    levelRank (levelFromCompression p1 c) ≤ levelRank (levelFromCompression p2 c) := by
  match p1, p2 with
  | .CRITICAL, .CRITICAL => exact absurd hp (by decide)
  | .CRITICAL, .HIGH => exact absurd ⟨rfl, rfl⟩ hx
  | .CRITICAL, .MEDIUM => exact levelFromCompression_crit_med c
  | .CRITICAL, .LOW =>
      rw [← levelFromCompression_med_eq_low]
      exact levelFromCompression_crit_med c
  | .HIGH, .CRITICAL => exact absurd hp (by decide)
  | .HIGH, .HIGH => exact absurd hp (by decide)
  | .HIGH, .MEDIUM => exact levelFromCompression_high_med c
  | .HIGH, .LOW =>
      rw [← levelFromCompression_med_eq_low]
      exact levelFromCompression_high_med c
  | .MEDIUM, .CRITICAL => exact absurd hp (by decide)
  | .MEDIUM, .HIGH => exact absurd hp (by decide)
  | .MEDIUM, .MEDIUM => exact absurd hp (by decide)
  | .MEDIUM, .LOW => rw [levelFromCompression_med_eq_low]
  | .LOW, .CRITICAL => exact absurd hp (by decide)
  | .LOW, .HIGH => exact absurd hp (by decide)
  | .LOW, .MEDIUM => exact absurd hp (by decide)
  | .LOW, .LOW => exact absurd hp (by decide)

/-- Claim C4: for `estimated_tokens > available_tokens > 0` and every
priority, `_determine_condensing_level` returns exactly the level of the
spec's threshold table at `compression_needed = estimated/available`. -/
theorem C4_level_table (estT avail : Int) (p : PriorityLevel)
    (h1 : avail < estT) (h2 : 0 < avail) :
    determineCondensingLevel estT avail p =
      some (specLevelTable p ((estT : ℚ) / (avail : ℚ))) := by
  rw [determine_eq_some estT avail p h1 (by omega)]
  congr 1
  cases p <;> simp [levelFromCompression, specLevelTable]

/-- Witness for C4 at `estimated = 3`, `available = 2`, CRITICAL priority
(the table gives MODERATE at compression 1.5). -/
theorem C4_level_table_witness :
    (2 : Int) < 3 ∧ (0 : Int) < 2 ∧
    determineCondensingLevel 3 2 PriorityLevel.CRITICAL =
      some (specLevelTable PriorityLevel.CRITICAL (((3 : Int) : ℚ) / ((2 : Int) : ℚ))) ∧
    specLevelTable PriorityLevel.CRITICAL (((3 : Int) : ℚ) / ((2 : Int) : ℚ)) =
      CondensingLevel.MODERATE :=
  ⟨by norm_num, by norm_num,
   C4_level_table 3 2 PriorityLevel.CRITICAL (by norm_num) (by norm_num),
   by norm_num [specLevelTable]⟩

/-- Claim C2, counterexample: at `estimated = 14`, `available = 10`
(compression 1.4), CRITICAL — the higher priority — receives MODERATE while
HIGH receives only LIGHT, so the level for the higher priority is strictly
more aggressive, contradicting the claim. -/
theorem C2_counterexample :
    PriorityLevel.ord PriorityLevel.HIGH < PriorityLevel.ord PriorityLevel.CRITICAL ∧
    (10 : Int) < 14 ∧ (0 : Int) < 10 ∧
    determineCondensingLevel 14 10 PriorityLevel.CRITICAL = some CondensingLevel.MODERATE ∧
    determineCondensingLevel 14 10 PriorityLevel.HIGH = some CondensingLevel.LIGHT ∧
    levelRank CondensingLevel.LIGHT < levelRank CondensingLevel.MODERATE := by
  have hc : ((14 : Int) : ℚ) / ((10 : Int) : ℚ) = 7/5 := by norm_num
  refine ⟨by decide, by norm_num, by norm_num, ?_, ?_, by decide⟩ <;>
    · rw [determine_eq_some 14 10 _ (by norm_num) (by norm_num), hc]
      simp only [levelFromCompression]
      norm_num
      all_goals decide

/-- Claim C2, amended: for every pair of priorities `p1 > p2` other than
the pair (CRITICAL, HIGH), at equal compression the level selected for
`p1` is never more aggressive than the level selected for `p2`. -/
theorem C2_priority_mono_amended (estT avail : Int) (p1 p2 : PriorityLevel)
    (h1 : avail < estT) (h2 : 0 < avail) (hp : p2.ord < p1.ord)
    (hx : ¬(p1 = PriorityLevel.CRITICAL ∧ p2 = PriorityLevel.HIGH)) :
    ∃ l1 l2, determineCondensingLevel estT avail p1 = some l1 ∧
      determineCondensingLevel estT avail p2 = some l2 ∧
      levelRank l1 ≤ levelRank l2 :=
  ⟨_, _, determine_eq_some estT avail p1 h1 (by omega),
   determine_eq_some estT avail p2 h1 (by omega),
   levelFromCompression_mono _ p1 p2 hp hx⟩

/-- Witness for the amended C2 at `estimated = 14`, `available = 10`,
`p1 = HIGH`, `p2 = MEDIUM`. -/
theorem C2_priority_mono_amended_witness :
    (10 : Int) < 14 ∧ (0 : Int) < 10 ∧
    PriorityLevel.ord PriorityLevel.MEDIUM < PriorityLevel.ord PriorityLevel.HIGH ∧
    ∃ l1 l2, determineCondensingLevel 14 10 PriorityLevel.HIGH = some l1 ∧
      determineCondensingLevel 14 10 PriorityLevel.MEDIUM = some l2 ∧
      levelRank l1 ≤ levelRank l2 :=
  ⟨by norm_num, by norm_num, by decide,
   C2_priority_mono_amended 14 10 PriorityLevel.HIGH PriorityLevel.MEDIUM
     (by norm_num) (by norm_num) (by decide) (by decide)⟩

lemma adjust_eq_increase (cc lvl : String) (used total : Int)
    (hgt : 8/10 < usageOf used total) :
    adjustCondensingLevel cc lvl used total = increaseCondensingLevel lvl := by
  unfold adjustCondensingLevel
  simp only []
  rw [if_pos hgt]

lemma adjust_eq_decrease (cc lvl : String) (used total : Int)
    (hlt : usageOf used total < 5/10) :
    adjustCondensingLevel cc lvl used total = decreaseCondensingLevel lvl := by
  unfold adjustCondensingLevel
  simp only []
  rw [if_neg (by linarith), if_pos hlt]

lemma adjust_eq_same (cc lvl : String) (used total : Int)
    (h1 : ¬ 8/10 < usageOf used total) (h2 : ¬ usageOf used total < 5/10) :
    adjustCondensingLevel cc lvl used total = lvl := by
  unfold adjustCondensingLevel
  simp only []
  rw [if_neg h1, if_neg h2]

lemma increase_rank (lvl : String) (h : lvl ∈ condensingLevels) :
    levelRank (increaseCondensingLevel lvl) = min (levelRank lvl + 1) 4 := by
  simp only [condensingLevels, List.mem_cons, List.not_mem_nil, or_false] at h
  rcases h with rfl | rfl | rfl | rfl | rfl <;> decide

lemma decrease_rank (lvl : String) (h : lvl ∈ condensingLevels) :
    levelRank (decreaseCondensingLevel lvl) = levelRank lvl - 1 := by
  simp only [condensingLevels, List.mem_cons, List.not_mem_nil, or_false] at h
  rcases h with rfl | rfl | rfl | rfl | rfl <;> decide

/-- Claim C9, amended: for every one of the five condensing levels and all
integer `tokens_used`, `total_budget`, `adjust_condensing_level` steps one
level up (clamped at MAXIMUM) when the usage quotient exceeds 0.8, one
level down (clamped at NONE) when it is below 0.5, and keeps the level
otherwise — where the usage quotient is `tokens_used / total_budget` when
`total_budget > 0` and `0` for every `total_budget ≤ 0` (not only for
`total_budget = 0` as the claim words it). -/
theorem C9_adjust_amended (cc lvl : String) (used total : Int)
    (hlvl : lvl ∈ condensingLevels) :
    (8/10 < usageOf used total →
      levelRank (adjustCondensingLevel cc lvl used total) = min (levelRank lvl + 1) 4) ∧
    (usageOf used total < 5/10 →
      levelRank (adjustCondensingLevel cc lvl used total) = levelRank lvl - 1) ∧
    (¬ 8/10 < usageOf used total → ¬ usageOf used total < 5/10 →
      adjustCondensingLevel cc lvl used total = lvl) :=
  ⟨fun hgt => by rw [adjust_eq_increase cc lvl used total hgt, increase_rank lvl hlvl],
   fun hlt => by rw [adjust_eq_decrease cc lvl used total hlt, decrease_rank lvl hlvl],
   fun h1 h2 => adjust_eq_same cc lvl used total h1 h2⟩

/-- Witness for the amended C9: usage 9/10 at level MODERATE escalates to
rank `min (2 + 1) 4 = 3` (HEAVY). -/
theorem C9_adjust_amended_witness :
    (8/10 : ℚ) < usageOf 9 10 ∧
    levelRank (adjustCondensingLevel "" CondensingLevel.MODERATE 9 10) =
      min (levelRank CondensingLevel.MODERATE + 1) 4 :=
  ⟨by norm_num [usageOf],
   (C9_adjust_amended "" CondensingLevel.MODERATE 9 10 (by decide)).1
     (by norm_num [usageOf])⟩

/-- Claim C9, counterexample: at `tokens_used = -9`, `total_budget = -10`
the mathematical quotient is 9/10 > 0.8, so the claim demands an
escalation (HEAVY from MODERATE), but the code treats every non-positive
`total_budget` as usage 0 and de-escalates to LIGHT. -/
theorem C9_counterexample :
    (8 : ℚ)/10 < ((-9 : Int) : ℚ) / ((-10 : Int) : ℚ) ∧
    adjustCondensingLevel "" CondensingLevel.MODERATE (-9) (-10) =
      CondensingLevel.LIGHT ∧
    levelRank CondensingLevel.LIGHT ≠ min (levelRank CondensingLevel.MODERATE + 1) 4 := by
  refine ⟨by norm_num, ?_, by decide⟩
  rw [adjust_eq_decrease _ _ _ _ (by norm_num [usageOf])]
  decide

lemma condense_of_under_budget (est : String → Int)
    (strat : String → String → String → PriorityLevel → String)
    (stats : CondenserStats) (content suffix : String) (avail : Int)
    (priority : PriorityLevel) (estTok : Option Int)
    (hw : ¬ isBlank content = true) (h : estTok.getD (est content) ≤ avail) :
    condenseWithBudget est strat stats content suffix avail priority estTok =
      some (content,
        { level := CondensingLevel.NONE,
          tokens_saved := estTok.getD (est content) - est content,
          original_tokens := some (estTok.getD (est content)),
          final_tokens := some (est content),
          compression := some (if 0 < estTok.getD (est content)
            then (est content : ℚ) / ((estTok.getD (est content) : Int) : ℚ) else 1),
          priority := some priority.pname },
        { files_processed := stats.files_processed + 1,
          tokens_saved := stats.tokens_saved + (estTok.getD (est content) - est content),
          condensing_levels_used :=
            bumpLevelCount stats.condensing_levels_used CondensingLevel.NONE }) := by
  have hd : determineCondensingLevel (estTok.getD (est content)) avail priority =
      some CondensingLevel.NONE := by
    unfold determineCondensingLevel
    rw [if_pos h]
  have ha : applyCondensing strat content suffix CondensingLevel.NONE priority = content := by
    unfold applyCondensing
    rw [if_pos rfl]
  unfold condenseWithBudget
  rw [if_neg hw]
  simp only [hd, ha]

/-- Claim C5: whenever `available_tokens ≥ estimated_tokens`,
`condense_with_budget` reports level NONE and returns the content
unchanged, and condensing the (unchanged) output a second time at the same
budget returns the same output again. -/
theorem C5_none_identity (est : String → Int)
    (strat : String → String → String → PriorityLevel → String)
    (stats stats2 : CondenserStats) (content suffix : String) (avail : Int)
    (priority : PriorityLevel) (estTok : Option Int)
    (h : estTok.getD (est content) ≤ avail) :
    ∃ info stats1,
      condenseWithBudget est strat stats content suffix avail priority estTok =
        some (content, info, stats1) ∧
      info.level = CondensingLevel.NONE ∧
      (condenseWithBudget est strat stats2 content suffix avail priority estTok).map
          (fun r => r.1) = some content := by
  by_cases hw : isBlank content = true
  · refine ⟨{ level := CondensingLevel.NONE, tokens_saved := 0 }, stats, ?_, rfl, ?_⟩ <;>
      simp [condenseWithBudget, hw]
  · exact ⟨_, _, condense_of_under_budget est strat stats content suffix avail priority estTok hw h,
      rfl,
      by rw [condense_of_under_budget est strat stats2 content suffix avail priority estTok hw h]
         rfl⟩

/-- Witness for C5: character-count estimator, content `"abcd"` (4 tokens)
against a budget of 100. -/
theorem C5_none_identity_witness :
    (Option.getD none (estLen "abcd") ≤ (100 : Int)) ∧
    ∃ info stats1,
      condenseWithBudget estLen stratId statsInit "abcd" ".txt" 100 PriorityLevel.MEDIUM none =
        some ("abcd", info, stats1) ∧
      info.level = CondensingLevel.NONE ∧
      (condenseWithBudget estLen stratId statsInit "abcd" ".txt" 100 PriorityLevel.MEDIUM none).map
          (fun r => r.1) = some "abcd" :=
  ⟨by decide,
   C5_none_identity estLen stratId statsInit statsInit "abcd" ".txt" 100
     PriorityLevel.MEDIUM none (by decide)⟩

/-- Claim C10: the pair (condensed text, info record) returned by
`condense_with_budget` is the same whatever the accumulated instance stats
are — the mutable stats never influence the output. -/
theorem C10_stats_independence (est : String → Int)
    (strat : String → String → String → PriorityLevel → String)
    (s1 s2 : CondenserStats) (content suffix : String) (avail : Int)
    (priority : PriorityLevel) (estTok : Option Int) :
    (condenseWithBudget est strat s1 content suffix avail priority estTok).map
        (fun r => (r.1, r.2.1)) =
    (condenseWithBudget est strat s2 content suffix avail priority estTok).map
        (fun r => (r.1, r.2.1)) := by
  by_cases hw : isBlank content = true
  · simp [condenseWithBudget, hw]
  · cases hd : determineCondensingLevel (estTok.getD (est content)) avail priority <;>
      simp [condenseWithBudget, hw, hd]

/-- Claim C8, amended: every call on content that is not whitespace-only
returns (when it does not raise) an info record containing the level
selected by `_determine_condensing_level`, the original estimate, the
final estimate of the returned text, tokens saved = original − final
(possibly negative), a compression entry equal to final/original when the
original estimate is positive and 1.0 when it is zero, and the priority
name; a whitespace-only or empty input is returned unchanged with an info
record that holds only level NONE and zero tokens saved (the other entries
are absent). -/
theorem C8_info_record_amended (est : String → Int)
    (strat : String → String → String → PriorityLevel → String)
    (stats : CondenserStats) (content suffix : String) (avail : Int)
    (priority : PriorityLevel) (estTok : Option Int) :
    (isBlank content = true →
      condenseWithBudget est strat stats content suffix avail priority estTok =
        some (content,
          { level := CondensingLevel.NONE, tokens_saved := 0, original_tokens := none,
            final_tokens := none, compression := none, priority := none }, stats)) ∧
    (¬ isBlank content = true →
      ∀ text info stats1,
        condenseWithBudget est strat stats content suffix avail priority estTok =
          some (text, info, stats1) →
        determineCondensingLevel (estTok.getD (est content)) avail priority =
          some info.level ∧
        info.original_tokens = some (estTok.getD (est content)) ∧
        info.final_tokens = some (est text) ∧
        info.tokens_saved = estTok.getD (est content) - est text ∧
        (0 < estTok.getD (est content) →
          info.compression =
            some ((est text : ℚ) / ((estTok.getD (est content) : Int) : ℚ))) ∧
        (estTok.getD (est content) = 0 → info.compression = some 1) ∧
        info.priority = some priority.pname) := by
  constructor
  · intro hw
    simp [condenseWithBudget, hw]
  · intro hw text info stats1 heq
    unfold condenseWithBudget at heq
    rw [if_neg hw] at heq
    simp only [] at heq
    cases hd : determineCondensingLevel (estTok.getD (est content)) avail priority with
    | none => rw [hd] at heq; simp at heq
    | some lvl =>
      rw [hd] at heq
      simp only [Option.some.injEq, Prod.mk.injEq] at heq
      obtain ⟨htext, hinfo, -⟩ := heq
      subst htext
      subst hinfo
      refine ⟨rfl, rfl, rfl, rfl, fun hpos => ?_, fun hzero => ?_, rfl⟩
      · simp only []
        rw [if_pos hpos]
      · simp only []
        rw [if_neg (by omega)]

/-- Witness for the amended C8: the full info record of a non-whitespace
call (`"abcd"`, 4 tokens, budget 100, MEDIUM). -/
theorem C8_info_record_amended_witness :
    (isBlank "abcd" = false) ∧
    (condenseWithBudget estLen stratId statsInit "abcd" ".txt" 100 PriorityLevel.MEDIUM none).map
        (fun r => (r.2.1.original_tokens, r.2.1.priority)) =
      some (some 4, some "MEDIUM") := by
  refine ⟨by decide, ?_⟩
  obtain ⟨t, i, s, hres⟩ :
      ∃ t i s, condenseWithBudget estLen stratId statsInit "abcd" ".txt" 100
        PriorityLevel.MEDIUM none = some (t, i, s) := ⟨_, _, _, rfl⟩
  have h := (C8_info_record_amended estLen stratId statsInit "abcd" ".txt" 100
    PriorityLevel.MEDIUM none).2 (by decide) t i s hres
  rw [hres]
  simp only [Option.map_some']
  rw [h.2.1, h.2.2.2.2.2.2]
  decide

/-- Claim C8, counterexample: the early whitespace return of
`condense_with_budget` produces an info dictionary with no original-token,
final-token, compression-ratio or priority entries, although the claim
promises them for every call. -/
theorem C8_counterexample :
    (condenseWithBudget estLen stratId statsInit " " ".py" 5 PriorityLevel.LOW none).map
        (fun r => (r.2.1.original_tokens, r.2.1.final_tokens, r.2.1.compression,
          r.2.1.priority)) =
      some (none, none, none, none) ∧
    (condenseWithBudget estLen stratId statsInit " " ".py" 5 PriorityLevel.LOW none).map
        (fun r => r.1) = some " " := by
  constructor <;> rfl

lemma determine_isSome (estT avail : Int) (p : PriorityLevel) (h : avail ≠ 0) :
    (determineCondensingLevel estT avail p).isSome := by
  unfold determineCondensingLevel
  split_ifs with h1 h2 <;> simp_all

lemma chunkGenericLoop_single (est : String → Int) (max_tokens : Int)
    (hmax : max_tokens ≤ 0) :
    ∀ (rest : List String) (i : Nat) (st : GenSt),
      (∀ l ∈ rest, 0 < est l) →
      (∀ c ∈ st.chunks, c.content.length = 1) →
      st.cur.length ≤ 1 → 0 ≤ st.curTok →
      (∀ c ∈ (chunkGenericLoop est max_tokens i rest st).chunks, c.content.length = 1) ∧
      (chunkGenericLoop est max_tokens i rest st).cur.length ≤ 1 := by
  intro rest
  induction rest with
  | nil =>
    intro i st _ h2 h3 _
    exact ⟨h2, h3⟩
  | cons line rest ih =>
    intro i st hl h2 h3 h4
    have hlt : 0 < est line := hl line (List.mem_cons_self _ _)
    have hrest : ∀ l ∈ rest, 0 < est l := fun l hm => hl l (List.mem_cons_of_mem _ hm)
    have hfits : ¬ (st.curTok + est line ≤ max_tokens) := by omega
    obtain ⟨chunks, cur, curTok, cid⟩ := st
    simp only [chunkGenericLoop]
    rw [if_neg hfits]
    cases cur with
    | nil =>
      simp only [List.isEmpty_nil, if_true]
      exact ih (i + 1) _ hrest h2 (by simp) (le_of_lt hlt)
    | cons a tail =>
      have htail : tail = [] := by
        have := h3
        simp at this
        exact this
      subst htail
      simp only [List.isEmpty_cons, Bool.false_eq_true, if_false]
      refine ih (i + 1) _ hrest ?_ (by simp) (le_of_lt hlt)
      intro c hcmem
      rcases List.mem_append.1 hcmem with hmem | hmem
      · exact h2 c hmem
      · rw [List.mem_singleton] at hmem
        subst hmem
        rfl

/-- Claim C3, amended: `condense_with_budget` completes without raising for
every strictly negative `available_tokens` (for `available_tokens = 0` it
raises `ZeroDivisionError` whenever the token estimate is positive — see
the counterexample); and the generic chunking path with `max_tokens ≤ 0`
completes, degrading to one source line per chunk. -/
theorem C3_degenerate_amended :
    (∀ (est : String → Int) (strat : String → String → String → PriorityLevel → String)
       (stats : CondenserStats) (content suffix : String) (avail : Int)
       (priority : PriorityLevel) (estTok : Option Int),
      avail < 0 →
      (condenseWithBudget est strat stats content suffix avail priority estTok).isSome) ∧
    (∀ (est : String → Int) (lines : List String) (max_tokens : Int),
      max_tokens ≤ 0 → (∀ l ∈ lines, 0 < est l) →
      ∀ c ∈ chunkGeneric est lines max_tokens, c.content.length = 1) := by
  constructor
  · intro est strat stats content suffix avail priority estTok hneg
    by_cases hw : isBlank content = true
    · simp [condenseWithBudget, hw]
    · cases hd : determineCondensingLevel (estTok.getD (est content)) avail priority with
      | none =>
        have := determine_isSome (estTok.getD (est content)) avail priority (by omega)
        rw [hd] at this
        simp at this
      | some lvl => simp [condenseWithBudget, hw, hd]
  · intro est lines max_tokens hmax hpos c hc
    obtain ⟨h1, h2⟩ := chunkGenericLoop_single est max_tokens hmax lines 0 ⟨[], [], 0, 1⟩
      hpos (by simp) (by simp) (by simp)
    unfold chunkGeneric backfillTotals at hc
    rw [List.mem_map] at hc
    obtain ⟨c0, hc0, rfl⟩ := hc
    show c0.content.length = 1
    set st := chunkGenericLoop est max_tokens 0 lines ⟨[], [], 0, 1⟩ with hst
    unfold genFinish at hc0
    by_cases hcur : st.cur.isEmpty
    · rw [if_pos hcur] at hc0
      exact h1 c0 hc0
    · rw [if_neg hcur] at hc0
      rcases List.mem_append.1 hc0 with hmem | hmem
      · exact h1 c0 hmem
      · rw [List.mem_singleton] at hmem
        subst hmem
        show st.cur.length = 1
        have hne : st.cur ≠ [] := by
          intro h
          exact hcur (by simp [h])
        have := List.length_pos.2 hne
        omega

/-- Witness for the amended C3: a negative budget completes, and generic
chunking of two positive-cost lines at budget 0 makes the first chunk the
single line `"aa"`. -/
theorem C3_degenerate_amended_witness :
    ((-1 : Int) < 0 ∧
     (condenseWithBudget estLen stratId statsInit "abcd" ".txt" (-1)
        PriorityLevel.LOW none).isSome) ∧
    ((0 : Int) ≤ 0 ∧ (∀ l ∈ ["aa", "bb"], 0 < estLen l) ∧
     ({ content := ["aa"], chunk_id := 1, total_chunks := 2, start_line := some 0,
        end_line := some 0, estimated_tokens := 2 } : Chunk) ∈
          chunkGeneric estLen ["aa", "bb"] 0 ∧
     ({ content := ["aa"], chunk_id := 1, total_chunks := 2, start_line := some 0,
        end_line := some 0, estimated_tokens := 2 } : Chunk).content.length = 1) := by
  refine ⟨⟨by norm_num, C3_degenerate_amended.1 estLen stratId statsInit "abcd" ".txt" (-1)
    PriorityLevel.LOW none (by norm_num)⟩, by norm_num, by decide, ?_, ?_⟩
  · decide
  · exact C3_degenerate_amended.2 estLen ["aa", "bb"] 0 (by norm_num) (by decide) _ (by decide)

/-- Claim C3, counterexample: `condense_with_budget` with
`available_tokens = 0` on the four-character content `"abcd"` (estimate 4)
reaches the division `estimated_tokens / available_tokens` and raises
`ZeroDivisionError` (modelled by `none`), contradicting the claim that
every `available_tokens ≤ 0` call completes. -/
theorem C3_counterexample :
    isBlank "abcd" = false ∧ (0 : Int) ≤ 0 ∧
    condenseWithBudget estLen stratId statsInit "abcd" ".txt" 0
      PriorityLevel.MEDIUM none = none := by
  exact ⟨by decide, by norm_num, by decide⟩

lemma range1_concat (s n : ℕ) : List.range' s (n + 1) = List.range' s n ++ [s + n] :=
  List.range'_1_concat s n

lemma range1_append (s m n : ℕ) :
    List.range' s m ++ List.range' (s + m) n = List.range' s (m + n) := by
  rw [Nat.add_comm m n]
  have h := List.range'_append s m n 1
  simpa using h

/-- Dense 1-based chunk ids together with the backfilled total count: the
invariant claim C6 asserts of every returned chunk sequence. -/
def chunkSeqOk (cs : List Chunk) : Prop :=
  cs.map (fun c => c.chunk_id) = List.range' 1 cs.length ∧
  ∀ c ∈ cs, c.total_chunks = cs.length

/-- Loop invariant for id assignment in `_split_large_boundary`. -/
def SplitIds (scid : Nat) (st : SplitSt) : Prop :=
  st.subs.map (fun c => c.chunk_id) = List.range' scid st.subs.length ∧
  st.cid = scid + st.subs.length ∧ st.cur ≠ []

lemma splitStep_ids (est : String → Int) (max_tokens : Int)
    (sig boundary_type bname : String) (scid start_line : Nat)
    (st : SplitSt) (line : String) (h : SplitIds scid st) :
    SplitIds scid (splitStep est max_tokens sig boundary_type bname scid start_line st line) := by
  obtain ⟨h1, h2, h3⟩ := h
  unfold splitStep
  by_cases hfit : st.curTok + est line ≤ max_tokens
  · rw [if_pos hfit]
    refine ⟨h1, h2, ?_⟩
    simp only []
    intro hemp
    exact h3 (List.append_eq_nil.1 hemp).1
  · rw [if_neg hfit]
    refine ⟨?_, ?_, by simp⟩
    · simp only [List.map_append, List.map_cons, List.map_nil, List.length_append,
        List.length_cons, List.length_nil, h1, h2]
      rw [range1_concat]
    · simp only [List.length_append, List.length_cons, List.length_nil, h2]
      omega

lemma splitFold_ids (est : String → Int) (max_tokens : Int)
    (sig boundary_type bname : String) (scid start_line : Nat) :
    ∀ (l : List String) (st : SplitSt), SplitIds scid st →
      SplitIds scid
        (l.foldl (splitStep est max_tokens sig boundary_type bname scid start_line) st) := by
  intro l
  induction l with
  | nil => intro st h; exact h
  | cons a l ih =>
    intro st h
    exact ih _ (splitStep_ids est max_tokens sig boundary_type bname scid start_line st a h)

lemma splitLargeBoundary_ids (est : String → Int) (bl : List String)
    (max_tokens : Int) (scid : Nat) (boundary_type bname : String) (sl : Nat) :
    (splitLargeBoundary est bl max_tokens scid boundary_type bname sl).map
        (fun c => c.chunk_id) =
      List.range' scid (splitLargeBoundary est bl max_tokens scid boundary_type bname sl).length ∧
    0 < (splitLargeBoundary est bl max_tokens scid boundary_type bname sl).length := by
  have h0 : SplitIds scid ⟨[], [bl.headD ""], est (bl.headD ""), scid⟩ :=
    ⟨rfl, rfl, by simp⟩
  have h := splitFold_ids est max_tokens (bl.headD "") boundary_type bname scid sl bl.tail _ h0
  obtain ⟨h1, h2, h3⟩ := h
  unfold splitLargeBoundary
  simp only []
  rw [if_neg (by simpa [List.isEmpty_iff] using h3)]
  constructor
  · simp only [List.map_append, List.map_cons, List.map_nil, List.length_append,
      List.length_cons, List.length_nil, h1, h2]
    rw [range1_concat]
  · simp

/-- Loop invariant for id assignment in `_create_chunks_with_boundaries`. -/
def PackIds (st : PackSt) : Prop :=
  st.chunks.map (fun c => c.chunk_id) = List.range' 1 st.chunks.length ∧
  st.cid = st.chunks.length + 1

lemma flushCur_ids (est : String → Int) (st : PackSt) (i : Nat) (h : PackIds st) :
    PackIds (flushCur est st i) := by
  obtain ⟨h1, h2⟩ := h
  unfold flushCur
  by_cases hc : st.cur.isEmpty
  · rw [if_pos hc]
    exact ⟨h1, h2⟩
  · rw [if_neg hc]
    constructor
    · simp only [List.map_append, List.map_cons, List.map_nil, List.length_append,
        List.length_cons, List.length_nil, createChunk, h1, h2]
      rw [range1_concat, Nat.add_comm 1 st.chunks.length]
    · simp only [List.length_append, List.length_cons, List.length_nil, h2]

lemma packLoop_ids (est : String → Int) (lines : List String) (bs : List Boundary)
    (max_tokens : Int) :
    ∀ (fuel i : Nat) (st : PackSt), PackIds st →
      PackIds (packLoop est lines bs max_tokens fuel i st) := by
  intro fuel
  induction fuel with
  | zero => intro i st h; exact h
  | succ fuel ih =>
    intro i st h
    simp only [packLoop]
    by_cases hi : i < lines.length
    · rw [if_pos hi]
      rcases hfind : bs.find? (fun b => b.1 == i) with _ | b
      · rw [hfind]
        dsimp only
        by_cases hfit : st.curTok + est (lines.getD i "") ≤ max_tokens
        · rw [if_pos hfit]
          exact ih _ _ ⟨h.1, h.2⟩
        · rw [if_neg hfit]
          have hf := flushCur_ids est st i h
          exact ih _ _ ⟨hf.1, hf.2⟩
      · rw [hfind]
        dsimp only
        by_cases hfit : st.curTok + est (joinLines (boundarySpan lines b)) ≤ max_tokens
        · rw [if_pos hfit]
          exact ih _ _ ⟨h.1, h.2⟩
        · rw [if_neg hfit]
          by_cases hover : max_tokens < est (joinLines (boundarySpan lines b))
          · rw [if_pos hover]
            have hf := flushCur_ids est st i h
            refine ih _ _ ⟨?_, ?_⟩
            · obtain ⟨hs1, hs2⟩ := splitLargeBoundary_ids est (boundarySpan lines b)
                max_tokens (flushCur est st i).cid b.2.2.1 b.2.2.2 b.1
              simp only [List.map_append, List.length_append, hf.1, hs1, hf.2]
              rw [hf.2] at hs1
              rw [Nat.add_comm (flushCur est st i).chunks.length 1]
              rw [Nat.add_comm (flushCur est st i).chunks.length 1] at hs1
              rw [hs1]
              exact range1_append 1 (flushCur est st i).chunks.length _
            · simp only [List.length_append, hf.2]
              omega
          · rw [if_neg hover]
            have hf := flushCur_ids est st i h
            exact ih _ _ ⟨hf.1, hf.2⟩
    · rw [if_neg hi]
      exact h

lemma packFinish_ids (est : String → Int) (st : PackSt) (h : PackIds st) :
    (packFinish est st).map (fun c => c.chunk_id) =
      List.range' 1 (packFinish est st).length := by
  obtain ⟨h1, h2⟩ := h
  unfold packFinish
  by_cases hc : st.cur.isEmpty
  · rw [if_pos hc]
    exact h1
  · rw [if_neg hc]
    simp only [List.map_append, List.map_cons, List.map_nil, List.length_append,
      List.length_cons, List.length_nil, createChunk, h1, h2]
    rw [range1_concat, Nat.add_comm 1 st.chunks.length]

lemma chunkSeqOk_map (f : Chunk → Chunk) (hid : ∀ c, (f c).chunk_id = c.chunk_id)
    (htot : ∀ c, (f c).total_chunks = c.total_chunks) (cs : List Chunk)
    (h : chunkSeqOk cs) : chunkSeqOk (cs.map f) := by
  obtain ⟨h1, h2⟩ := h
  constructor
  · rw [List.map_map, List.length_map]
    rw [show ((fun c => c.chunk_id) ∘ f) = (fun c => c.chunk_id) from funext fun c => hid c]
    exact h1
  · intro c hc
    rw [List.length_map]
    rw [List.mem_map] at hc
    obtain ⟨c0, hc0, rfl⟩ := hc
    rw [htot c0]
    exact h2 c0 hc0

lemma backfillTotals_ok (chunks : List Chunk)
    (h : chunks.map (fun c => c.chunk_id) = List.range' 1 chunks.length) :
    chunkSeqOk (backfillTotals chunks) := by
  unfold backfillTotals
  constructor
  · rw [List.map_map, List.length_map]
    have hcomp : chunks.map ((fun c => c.chunk_id) ∘
        (fun c => { c with total_chunks := chunks.length })) =
        chunks.map (fun c => c.chunk_id) := by
      apply List.map_congr_left
      intro c _
      rfl
    rw [hcomp]
    exact h
  · intro c hc
    rw [List.length_map]
    rw [List.mem_map] at hc
    obtain ⟨c0, hc0, rfl⟩ := hc
    rfl

lemma createChunksCore_ok (est : String → Int) (lines : List String)
    (bs : List Boundary) (max_tokens : Int) :
    chunkSeqOk (createChunksCore est lines bs max_tokens) := by
  have hp : PackIds (packLoop est lines bs max_tokens lines.length 0 ⟨[], [], 0, 1, 0⟩) :=
    packLoop_ids est lines bs max_tokens lines.length 0 _ ⟨rfl, rfl⟩
  exact backfillTotals_ok _ (packFinish_ids est _ hp)

lemma createChunksWithBoundaries_ok (est : String → Int) (strategy : ChunkingStrategy)
    (lines : List String) (bs : List Boundary) (max_tokens : Int) :
    chunkSeqOk (createChunksWithBoundaries est strategy lines bs max_tokens) := by
  unfold createChunksWithBoundaries
  by_cases ho : strategy.overlap_functions
  · rw [if_pos ho]
    unfold addFunctionOverlaps
    apply chunkSeqOk_map
    · intro c
      rfl
    · intro c
      rfl
    · exact createChunksCore_ok est lines bs max_tokens
  · rw [if_neg ho]
    exact createChunksCore_ok est lines bs max_tokens

/-- Loop invariant for id assignment in `_chunk_generic_content`. -/
def GenIds (st : GenSt) : Prop :=
  st.chunks.map (fun c => c.chunk_id) = List.range' 1 st.chunks.length ∧
  st.cid = st.chunks.length + 1

lemma chunkGenericLoop_ids (est : String → Int) (max_tokens : Int) :
    ∀ (rest : List String) (i : Nat) (st : GenSt), GenIds st →
      GenIds (chunkGenericLoop est max_tokens i rest st) := by
  intro rest
  induction rest with
  | nil => intro i st h; exact h
  | cons line rest ih =>
    intro i st h
    simp only [chunkGenericLoop]
    by_cases hfit : st.curTok + est line ≤ max_tokens
    · rw [if_pos hfit]
      exact ih _ _ ⟨h.1, h.2⟩
    · rw [if_neg hfit]
      by_cases hc : st.cur.isEmpty
      · rw [if_pos hc]
        exact ih _ _ ⟨h.1, h.2⟩
      · rw [if_neg hc]
        refine ih _ _ ⟨?_, ?_⟩
        · simp only [List.map_append, List.map_cons, List.map_nil, List.length_append,
            List.length_cons, List.length_nil, h.1, h.2]
          rw [range1_concat, Nat.add_comm 1 st.chunks.length]
        · simp only [List.length_append, List.length_cons, List.length_nil, h.2]

lemma genFinish_ids (est : String → Int) (lines : List String) (st : GenSt)
    (h : GenIds st) :
    (genFinish est lines st).map (fun c => c.chunk_id) =
      List.range' 1 (genFinish est lines st).length := by
  obtain ⟨h1, h2⟩ := h
  unfold genFinish
  by_cases hc : st.cur.isEmpty
  · rw [if_pos hc]
    exact h1
  · rw [if_neg hc]
    simp only [List.map_append, List.map_cons, List.map_nil, List.length_append,
      List.length_cons, List.length_nil, h1, h2]
    rw [range1_concat, Nat.add_comm 1 st.chunks.length]

lemma chunkGeneric_ok (est : String → Int) (lines : List String) (max_tokens : Int) :
    chunkSeqOk (chunkGeneric est lines max_tokens) := by
  have hp : GenIds (chunkGenericLoop est max_tokens 0 lines ⟨[], [], 0, 1⟩) :=
    chunkGenericLoop_ids est max_tokens lines 0 _ ⟨rfl, rfl⟩
  exact backfillTotals_ok _ (genFinish_ids est lines _ hp)

lemma enrichList_pairs (est : String → Int) (fileName : String) (n : Nat) :
    ∀ (cs : List Chunk) (i : Nat),
      (enrichList est fileName n i cs).map (fun c => (c.chunk_id, c.total_chunks)) =
        cs.map (fun c => (c.chunk_id, c.total_chunks)) := by
  intro cs
  induction cs with
  | nil => intro i; rfl
  | cons c rest ih =>
    intro i
    simp only [enrichList, List.map_cons, ih]
    rfl

lemma chunkSeqOk_of_pairs {cs ds : List Chunk}
    (h : ds.map (fun c => (c.chunk_id, c.total_chunks)) =
      cs.map (fun c => (c.chunk_id, c.total_chunks)))
    (hok : chunkSeqOk cs) : chunkSeqOk ds := by
  have hlen : ds.length = cs.length := by
    have hl := congrArg List.length h
    simpa using hl
  constructor
  · have h1 := congrArg (List.map Prod.fst) h
    rw [List.map_map, List.map_map] at h1
    have e1 : (Prod.fst ∘ fun c : Chunk => (c.chunk_id, c.total_chunks)) =
        fun c : Chunk => c.chunk_id := rfl
    rw [e1] at h1
    rw [hlen, h1]
    exact hok.1
  · intro c hc
    have hmem : (c.chunk_id, c.total_chunks) ∈
        cs.map (fun c => (c.chunk_id, c.total_chunks)) := by
      rw [← h]
      exact List.mem_map_of_mem _ hc
    rw [List.mem_map] at hmem
    obtain ⟨c0, hc0, heq⟩ := hmem
    have h2 := hok.2 c0 hc0
    rw [hlen, ← h2]
    exact (congrArg Prod.snd heq).symm

lemma addContinuationContext_ok (est : String → Int) (cs : List Chunk)
    (fileName : String) (h : chunkSeqOk cs) :
    chunkSeqOk (addContinuationContext est cs fileName) := by
  unfold addContinuationContext
  by_cases hl : cs.length ≤ 1
  · rw [if_pos hl]
    exact h
  · rw [if_neg hl]
    exact chunkSeqOk_of_pairs (enrichList_pairs est fileName cs.length cs 0) h

/-- Claim C6: every chunk sequence returned by `chunk_with_context` has
chunk ids forming exactly the sequence 1, 2, …, n in document order (dense,
1-based, strictly increasing) and every chunk's `total_chunks` equals the
final chunk count, for any token estimator, strategy, suffix, boundary
finder and budget. -/
theorem C6_chunk_ids_dense (est : String → Int) (strategy : ChunkingStrategy)
    (suffix : String) (parse_ok : Bool) (findB : List String → List Boundary)
    (lines : List String) (fileName : String) (max_tokens : Int) :
    (chunkWithContext est strategy suffix parse_ok findB lines fileName max_tokens).map
        (fun c => c.chunk_id) =
      List.range' 1
        (chunkWithContext est strategy suffix parse_ok findB lines fileName max_tokens).length ∧
    ∀ c ∈ chunkWithContext est strategy suffix parse_ok findB lines fileName max_tokens,
      c.total_chunks =
        (chunkWithContext est strategy suffix parse_ok findB lines fileName max_tokens).length := by
  suffices h : chunkSeqOk
      (chunkWithContext est strategy suffix parse_ok findB lines fileName max_tokens) by
    exact ⟨h.1, h.2⟩
  unfold chunkWithContext
  by_cases hb : isBlank (joinLines lines) = true
  · rw [if_pos hb]
    exact ⟨rfl, by intro c hc; cases hc⟩
  · rw [if_neg hb]
    by_cases hfit : est (joinLines lines) ≤ max_tokens
    · rw [if_pos hfit]
      exact ⟨rfl, by intro c hc; rw [List.mem_singleton] at hc; subst hc; rfl⟩
    · rw [if_neg hfit]
      have hcore : chunkSeqOk
          (if suffix = ".py" then
            if parse_ok then
              createChunksWithBoundaries est strategy lines (findB lines) max_tokens
            else chunkGeneric est lines max_tokens
          else if suffix = ".js" ∨ suffix = ".ts" ∨ suffix = ".jsx" ∨ suffix = ".tsx" then
            createChunksWithBoundaries est strategy lines (findB lines) max_tokens
          else if suffix = ".java" then
            createChunksWithBoundaries est strategy lines (findB lines) max_tokens
          else chunkGeneric est lines max_tokens) := by
        split_ifs <;>
          first
            | exact createChunksWithBoundaries_ok est strategy lines (findB lines) max_tokens
            | exact chunkGeneric_ok est lines max_tokens
      by_cases hh : strategy.include_context_headers
      · rw [if_pos hh]
        exact addContinuationContext_ok est _ fileName hcore
      · rw [if_neg hh]
        exact hcore

lemma flushCur_flatten (est : String → Int) (st : PackSt) (i : Nat) :
    ((flushCur est st i).chunks.map (fun c => c.content)).flatten ++ (flushCur est st i).cur =
      (st.chunks.map (fun c => c.content)).flatten ++ st.cur := by
  unfold flushCur
  by_cases hc : st.cur.isEmpty
  · rw [if_pos hc]
  · rw [if_neg hc]
    simp [createChunk]

lemma take_line (lines : List String) (i : Nat) (hi : i < lines.length) :
    lines.take i ++ [lines.getD i ""] = lines.take (i + 1) := by
  rw [List.take_succ, List.getElem?_eq_getElem hi]
  simp [List.getD_eq_getElem?_getD, List.getElem?_eq_getElem hi]

lemma take_boundary (lines : List String) (i e : Nat) (hi : i ≤ e + 1) :
    lines.take i ++ (lines.drop i).take (e + 1 - i) = lines.take (e + 1) := by
  have h := List.take_add lines i (e + 1 - i)
  rw [show i + (e + 1 - i) = e + 1 from by omega] at h
  exact h.symm

lemma packLoop_lines (est : String → Int) (lines : List String) (bs : List Boundary)
    (max_tokens : Int)
    (hwf : ∀ b ∈ bs, b.1 ≤ b.2.1)
    (hfitall : ∀ b ∈ bs, est (joinLines (boundarySpan lines b)) ≤ max_tokens) :
    ∀ (fuel i : Nat) (st : PackSt), lines.length ≤ i + fuel →
      (st.chunks.map (fun c => c.content)).flatten ++ st.cur = lines.take i →
      ((packLoop est lines bs max_tokens fuel i st).chunks.map
          (fun c => c.content)).flatten ++
        (packLoop est lines bs max_tokens fuel i st).cur = lines := by
  intro fuel
  induction fuel with
  | zero =>
    intro i st hfuel hinv
    rw [List.take_of_length_le (by omega)] at hinv
    exact hinv
  | succ fuel ih =>
    intro i st hfuel hinv
    simp only [packLoop]
    by_cases hi : i < lines.length
    · rw [if_pos hi]
      rcases hfind : bs.find? (fun b => b.1 == i) with _ | b
      · rw [hfind]
        dsimp only
        by_cases hfit : st.curTok + est (lines.getD i "") ≤ max_tokens
        · rw [if_pos hfit]
          apply ih (i + 1) _ (by omega)
          show (st.chunks.map (fun c => c.content)).flatten ++
            (st.cur ++ [lines.getD i ""]) = lines.take (i + 1)
          rw [← List.append_assoc, hinv, take_line lines i hi]
        · rw [if_neg hfit]
          apply ih (i + 1) _ (by omega)
          show ((flushCur est st i).chunks.map (fun c => c.content)).flatten ++
            [lines.getD i ""] = lines.take (i + 1)
          have hfl := flushCur_flatten est st i
          have hcur : (flushCur est st i).cur = [] := by
            unfold flushCur
            by_cases hc : st.cur.isEmpty
            · rw [if_pos hc]
              simpa [List.isEmpty_iff] using hc
            · rw [if_neg hc]
          rw [hcur, List.append_nil] at hfl
          rw [hfl, hinv, take_line lines i hi]
      · rw [hfind]
        dsimp only
        have hbmem := List.mem_of_find?_eq_some hfind
        have hbi : b.1 = i := by simpa using List.find?_some hfind
        have hble : b.1 ≤ b.2.1 := hwf b hbmem
        have hbfit : est (joinLines (boundarySpan lines b)) ≤ max_tokens := hfitall b hbmem
        have hspan : lines.take i ++ boundarySpan lines b = lines.take (b.2.1 + 1) := by
          unfold boundarySpan
          rw [hbi]
          exact take_boundary lines i b.2.1 (by omega)
        by_cases hfit : st.curTok + est (joinLines (boundarySpan lines b)) ≤ max_tokens
        · rw [if_pos hfit]
          apply ih (b.2.1 + 1) _ (by omega)
          show (st.chunks.map (fun c => c.content)).flatten ++
            (st.cur ++ boundarySpan lines b) = lines.take (b.2.1 + 1)
          rw [← List.append_assoc, hinv, hspan]
        · rw [if_neg hfit]
          rw [if_neg (by omega)]
          apply ih (b.2.1 + 1) _ (by omega)
          show ((flushCur est st i).chunks.map (fun c => c.content)).flatten ++
            boundarySpan lines b = lines.take (b.2.1 + 1)
          have hfl := flushCur_flatten est st i
          have hcur : (flushCur est st i).cur = [] := by
            unfold flushCur
            by_cases hc : st.cur.isEmpty
            · rw [if_pos hc]
              simpa [List.isEmpty_iff] using hc
            · rw [if_neg hc]
          rw [hcur, List.append_nil] at hfl
          rw [hfl, hinv, hspan]
    · rw [if_neg hi]
      rw [List.take_of_length_le (by omega)] at hinv
      exact hinv

lemma packFinish_flatten (est : String → Int) (st : PackSt) :
    ((packFinish est st).map (fun c => c.content)).flatten =
      (st.chunks.map (fun c => c.content)).flatten ++ st.cur := by
  unfold packFinish
  by_cases hc : st.cur.isEmpty
  · rw [if_pos hc]
    have : st.cur = [] := by simpa [List.isEmpty_iff] using hc
    rw [this, List.append_nil]
  · rw [if_neg hc]
    simp [createChunk]

lemma backfillTotals_flatten (chunks : List Chunk) :
    ((backfillTotals chunks).map (fun c => c.content)).flatten =
      (chunks.map (fun c => c.content)).flatten := by
  unfold backfillTotals
  rw [List.map_map]
  rfl

lemma createChunksCore_roundtrip (est : String → Int) (lines : List String)
    (bs : List Boundary) (max_tokens : Int)
    (hwf : ∀ b ∈ bs, b.1 ≤ b.2.1)
    (hfitall : ∀ b ∈ bs, est (joinLines (boundarySpan lines b)) ≤ max_tokens) :
    ((createChunksCore est lines bs max_tokens).map (fun c => c.content)).flatten = lines := by
  have h := packLoop_lines est lines bs max_tokens hwf hfitall lines.length 0
    ⟨[], [], 0, 1, 0⟩ (by omega) (by simp)
  unfold createChunksCore
  rw [backfillTotals_flatten, packFinish_flatten]
  exact h

lemma chunkGenericLoop_lines (est : String → Int) (max_tokens : Int) :
    ∀ (rest : List String) (i : Nat) (st : GenSt),
      ((chunkGenericLoop est max_tokens i rest st).chunks.map
          (fun c => c.content)).flatten ++
        (chunkGenericLoop est max_tokens i rest st).cur =
      (st.chunks.map (fun c => c.content)).flatten ++ st.cur ++ rest := by
  intro rest
  induction rest with
  | nil =>
    intro i st
    simp [chunkGenericLoop]
  | cons line rest ih =>
    intro i st
    simp only [chunkGenericLoop]
    by_cases hfit : st.curTok + est line ≤ max_tokens
    · rw [if_pos hfit]
      rw [ih]
      simp
    · rw [if_neg hfit]
      by_cases hc : st.cur.isEmpty
      · rw [if_pos hc]
        rw [ih]
        have : st.cur = [] := by simpa [List.isEmpty_iff] using hc
        simp [this]
      · rw [if_neg hc]
        rw [ih]
        simp

lemma genFinish_flatten (est : String → Int) (lines : List String) (st : GenSt) :
    ((genFinish est lines st).map (fun c => c.content)).flatten =
      (st.chunks.map (fun c => c.content)).flatten ++ st.cur := by
  unfold genFinish
  by_cases hc : st.cur.isEmpty
  · rw [if_pos hc]
    have : st.cur = [] := by simpa [List.isEmpty_iff] using hc
    rw [this, List.append_nil]
  · rw [if_neg hc]
    simp

lemma chunkGeneric_roundtrip (est : String → Int) (lines : List String)
    (max_tokens : Int) :
    ((chunkGeneric est lines max_tokens).map (fun c => c.content)).flatten = lines := by
  have h := chunkGenericLoop_lines est max_tokens lines 0 ⟨[], [], 0, 1⟩
  unfold chunkGeneric
  rw [backfillTotals_flatten, genFinish_flatten, h]
  simp

/-- Claim C1, amended: concatenating the pre-enrichment chunk contents of
the boundary packer in chunk-id order reproduces the input lines exactly,
for every estimator and budget, PROVIDED no discovered boundary span's own
token cost exceeds `max_tokens` (an oversized span is split and its
signature line is duplicated into every sub-chunk — see the
counterexample); the generic no-boundary path reproduces the input
unconditionally. -/
theorem C1_roundtrip_amended :
    (∀ (est : String → Int) (lines : List String) (bs : List Boundary) (max_tokens : Int),
      (∀ b ∈ bs, b.1 ≤ b.2.1) →
      (∀ b ∈ bs, est (joinLines (boundarySpan lines b)) ≤ max_tokens) →
      ((createChunksCore est lines bs max_tokens).map (fun c => c.content)).flatten = lines) ∧
    (∀ (est : String → Int) (lines : List String) (max_tokens : Int),
      ((chunkGeneric est lines max_tokens).map (fun c => c.content)).flatten = lines) :=
  ⟨fun est lines bs max_tokens hwf hfit =>
      createChunksCore_roundtrip est lines bs max_tokens hwf hfit,
   fun est lines max_tokens => chunkGeneric_roundtrip est lines max_tokens⟩

/-- Witness for the amended C1: a three-line file with one two-line
function boundary that fits the budget round-trips through the packer, and
three lines round-trip through the generic chunker. -/
theorem C1_roundtrip_amended_witness :
    (0 : Nat) ≤ 1 ∧
    estLen (joinLines (boundarySpan ["def f():", "  return 1", "x = 2"]
      (0, 1, "function", "f"))) ≤ (30 : Int) ∧
    ((createChunksCore estLen ["def f():", "  return 1", "x = 2"]
        [(0, 1, "function", "f")] 30).map (fun c => c.content)).flatten =
      ["def f():", "  return 1", "x = 2"] ∧
    ((chunkGeneric estLen ["aaaa", "bbbb", "cccc"] 5).map (fun c => c.content)).flatten =
      ["aaaa", "bbbb", "cccc"] := by
  refine ⟨by norm_num, by decide, ?_, ?_⟩
  · exact C1_roundtrip_amended.1 estLen ["def f():", "  return 1", "x = 2"]
      [(0, 1, "function", "f")] 30 (by decide) (by decide)
  · exact C1_roundtrip_amended.2 estLen ["aaaa", "bbbb", "cccc"] 5

/-- Claim C1, counterexample: a single function boundary of 34 token cost
against `max_tokens = 20` is split by `_split_large_boundary`, which copies
the signature line `"def f():"` into the second sub-chunk; the
concatenation of the chunks' contents then repeats that line and does not
reproduce the input. -/
theorem C1_counterexample :
    estLen (joinLines ["def f():", "  aaaaaaaaaa", "  bbbbbbbbbb"]) = 34 ∧
    (20 : Int) < 34 ∧
    (0 : Nat) ≤ 2 ∧
    ((createChunksCore estLen ["def f():", "  aaaaaaaaaa", "  bbbbbbbbbb"]
        [(0, 2, "function", "f")] 20).map (fun c => c.content)).flatten =
      ["def f():", "  aaaaaaaaaa", "def f():", "  bbbbbbbbbb"] ∧
    ((createChunksCore estLen ["def f():", "  aaaaaaaaaa", "  bbbbbbbbbb"]
        [(0, 2, "function", "f")] 20).map (fun c => c.content)).flatten ≠
      ["def f():", "  aaaaaaaaaa", "  bbbbbbbbbb"] := by
  refine ⟨by decide, by norm_num, by norm_num, by decide, by decide⟩

/-- The span `s` occurs contiguously (as one block of consecutive lines)
inside `l`. -/
def SegIn (s l : List String) : Prop := ∃ pre post, l = pre ++ s ++ post

lemma SegIn.append_right {s l : List String} (h : SegIn s l) (x : List String) :
    SegIn s (l ++ x) := by
  obtain ⟨pre, post, rfl⟩ := h
  exact ⟨pre, post ++ x, by simp⟩

lemma SegIn_append_self (cur s : List String) : SegIn s (cur ++ s) :=
  ⟨cur, [], by simp⟩

lemma SegIn_self (s : List String) : SegIn s s :=
  ⟨[], [], by simp⟩

lemma SegIn_nil {s : List String} (h : SegIn s []) : s = [] := by
  obtain ⟨pre, post, heq⟩ := h
  have := congrArg List.length heq
  simp at this
  exact List.eq_nil_of_length_eq_zero (by omega)

lemma leadsList_iff (s : List String) :
    ∀ l, leadsList s l = true ↔ ∃ post, l = s ++ post := by
  induction s with
  | nil =>
    intro l
    simp [leadsList]
  | cons a s ih =>
    intro l
    cases l with
    | nil =>
      simp [leadsList]
    | cons b t =>
      simp only [leadsList, Bool.and_eq_true, beq_iff_eq, ih t]
      constructor
      · rintro ⟨rfl, post, rfl⟩
        exact ⟨post, rfl⟩
      · rintro ⟨post, heq⟩
        rw [List.cons_append] at heq
        injection heq with h1 h2
        exact ⟨h1.symm, post, h2⟩

lemma hasSeg_iff (s : List String) : ∀ l, hasSeg s l = true ↔ SegIn s l := by
  intro l
  induction l with
  | nil =>
    simp only [hasSeg, List.isEmpty_iff]
    constructor
    · rintro rfl
      exact SegIn_self []
    · intro h
      exact SegIn_nil h
  | cons b t ih =>
    simp only [hasSeg, Bool.or_eq_true, leadsList_iff, ih]
    constructor
    · rintro (⟨post, heq⟩ | ⟨pre, post, heq⟩)
      · exact ⟨[], post, by simpa using heq⟩
      · exact ⟨b :: pre, post, by simp [heq]⟩
    · rintro ⟨pre, post, heq⟩
      cases pre with
      | nil =>
        exact Or.inl ⟨post, by simpa using heq⟩
      | cons p pre =>
        rw [List.cons_append, List.cons_append] at heq
        injection heq with h1 h2
        exact Or.inr ⟨pre, post, h2⟩

lemma flushCur_seg (est : String → Int) (st : PackSt) (i : Nat) {s : List String}
    (hs : s ≠ []) (h : SegIn s st.cur ∨ ∃ c ∈ st.chunks, SegIn s c.content) :
    ∃ c ∈ (flushCur est st i).chunks, SegIn s c.content := by
  unfold flushCur
  by_cases hc : st.cur.isEmpty
  · rw [if_pos hc]
    rcases h with h | h
    · have : st.cur = [] := by simpa [List.isEmpty_iff] using hc
      rw [this] at h
      exact absurd (SegIn_nil h) hs
    · exact h
  · rw [if_neg hc]
    rcases h with h | ⟨c, hcm, hcs⟩
    · exact ⟨createChunk est st.cur st.cid st.lastLine (st.lastLine + st.cur.length - 1),
        by simp, h⟩
    · exact ⟨c, by simp [hcm], hcs⟩

lemma packFinish_seg (est : String → Int) (st : PackSt) {s : List String}
    (hs : s ≠ []) (h : SegIn s st.cur ∨ ∃ c ∈ st.chunks, SegIn s c.content) :
    ∃ c ∈ packFinish est st, SegIn s c.content := by
  unfold packFinish
  by_cases hc : st.cur.isEmpty
  · rw [if_pos hc]
    rcases h with h | h
    · have : st.cur = [] := by simpa [List.isEmpty_iff] using hc
      rw [this] at h
      exact absurd (SegIn_nil h) hs
    · exact h
  · rw [if_neg hc]
    rcases h with h | ⟨c, hcm, hcs⟩
    · exact ⟨createChunk est st.cur st.cid st.lastLine (st.lastLine + st.cur.length - 1),
        by simp, h⟩
    · exact ⟨c, by simp [hcm], hcs⟩

lemma packLoop_seg (est : String → Int) (lines : List String) (bs : List Boundary)
    (max_tokens : Int) {s : List String} (hs : s ≠ []) :
    ∀ (fuel i : Nat) (st : PackSt),
      (SegIn s st.cur ∨ ∃ c ∈ st.chunks, SegIn s c.content) →
      ∃ c ∈ packFinish est (packLoop est lines bs max_tokens fuel i st),
        SegIn s c.content := by
  intro fuel
  induction fuel with
  | zero =>
    intro i st h
    exact packFinish_seg est st hs h
  | succ fuel ih =>
    intro i st h
    simp only [packLoop]
    by_cases hi : i < lines.length
    · rw [if_pos hi]
      rcases hfind : bs.find? (fun b => b.1 == i) with _ | b
      · rw [hfind]
        dsimp only
        by_cases hfit : st.curTok + est (lines.getD i "") ≤ max_tokens
        · rw [if_pos hfit]
          refine ih _ _ ?_
          rcases h with h | h
          · exact Or.inl (h.append_right _)
          · exact Or.inr h
        · rw [if_neg hfit]
          exact ih _ _ (Or.inr (flushCur_seg est st i hs h))
      · rw [hfind]
        dsimp only
        by_cases hfit : st.curTok + est (joinLines (boundarySpan lines b)) ≤ max_tokens
        · rw [if_pos hfit]
          refine ih _ _ ?_
          rcases h with h | h
          · exact Or.inl (h.append_right _)
          · exact Or.inr h
        · rw [if_neg hfit]
          by_cases hover : max_tokens < est (joinLines (boundarySpan lines b))
          · rw [if_pos hover]
            refine ih _ _ (Or.inr ?_)
            obtain ⟨c, hcm, hcs⟩ := flushCur_seg est st i hs h
            exact ⟨c, by simp [hcm], hcs⟩
          · rw [if_neg hover]
            exact ih _ _ (Or.inr (flushCur_seg est st i hs h))
    · rw [if_neg hi]
      exact packFinish_seg est st hs h

lemma boundarySpan_ne_nil (lines : List String) (b : Boundary)
    (hwf : b.1 ≤ b.2.1) (hlt : b.1 < lines.length) :
    boundarySpan lines b ≠ [] := by
  unfold boundarySpan
  intro h
  have hlen := congrArg List.length h
  simp only [List.length_take, List.length_drop, List.length_nil] at hlen
  omega

lemma packLoop_reach (est : String → Int) (lines : List String) (bs : List Boundary)
    (max_tokens : Int) (b : Boundary)
    (hwf : ∀ c ∈ bs, c.1 ≤ c.2.1)
    (hmem : b ∈ bs)
    (huniq : ∀ c ∈ bs, c.1 = b.1 → c = b)
    (hearlier : ∀ c ∈ bs, c.1 < b.1 → c.2.1 < b.1)
    (hcost : est (joinLines (boundarySpan lines b)) ≤ max_tokens)
    (hlt : b.1 < lines.length) :
    ∀ (fuel i : Nat) (st : PackSt), i ≤ b.1 → lines.length ≤ i + fuel →
      ∃ c ∈ packFinish est (packLoop est lines bs max_tokens fuel i st),
        SegIn (boundarySpan lines b) c.content := by
  have hs : boundarySpan lines b ≠ [] := boundarySpan_ne_nil lines b (hwf b hmem) hlt
  intro fuel
  induction fuel with
  | zero =>
    intro i st hib hfuel
    omega
  | succ fuel ih =>
    intro i st hib hfuel
    simp only [packLoop]
    have hi : i < lines.length := by omega
    rw [if_pos hi]
    by_cases hEq : i = b.1
    · subst hEq
      have hfind : bs.find? (fun c => c.1 == b.1) = some b := by
        cases hf : bs.find? (fun c => c.1 == b.1) with
        | none =>
          exfalso
          have hnone := List.find?_eq_none.1 hf b hmem
          simp at hnone
        | some c =>
          have hc1 : c.1 = b.1 := by simpa using List.find?_some hf
          rw [huniq c (List.mem_of_find?_eq_some hf) hc1]
      rw [hfind]
      dsimp only
      by_cases hfit : st.curTok + est (joinLines (boundarySpan lines b)) ≤ max_tokens
      · rw [if_pos hfit]
        exact packLoop_seg est lines bs max_tokens hs _ _ _
          (Or.inl (SegIn_append_self st.cur _))
      · rw [if_neg hfit, if_neg (by omega)]
        exact packLoop_seg est lines bs max_tokens hs _ _ _
          (Or.inl (SegIn_self _))
    · have hlt2 : i < b.1 := by omega
      rcases hfind : bs.find? (fun c => c.1 == i) with _ | c
      · rw [hfind]
        dsimp only
        by_cases hfit : st.curTok + est (lines.getD i "") ≤ max_tokens
        · rw [if_pos hfit]
          exact ih (i + 1) _ (by omega) (by omega)
        · rw [if_neg hfit]
          exact ih (i + 1) _ (by omega) (by omega)
      · rw [hfind]
        dsimp only
        have hc1 : c.1 = i := by simpa using List.find?_some hfind
        have hcmem := List.mem_of_find?_eq_some hfind
        have hcb : c.2.1 < b.1 := hearlier c hcmem (by omega)
        have hce : i ≤ c.2.1 := by
          have := hwf c hcmem
          omega
        by_cases hfit : st.curTok + est (joinLines (boundarySpan lines c)) ≤ max_tokens
        · rw [if_pos hfit]
          exact ih (c.2.1 + 1) _ (by omega) (by omega)
        · rw [if_neg hfit]
          by_cases hover : max_tokens < est (joinLines (boundarySpan lines c))
          · rw [if_pos hover]
            exact ih (c.2.1 + 1) _ (by omega) (by omega)
          · rw [if_neg hover]
            exact ih (c.2.1 + 1) _ (by omega) (by omega)

lemma backfillTotals_seg (chunks : List Chunk) {s : List String}
    (h : ∃ c ∈ chunks, SegIn s c.content) :
    ∃ c ∈ backfillTotals chunks, SegIn s c.content := by
  obtain ⟨c, hcm, hcs⟩ := h
  exact ⟨{ c with total_chunks := chunks.length },
    List.mem_map_of_mem _ hcm, hcs⟩

/-- Claim C7, amended: a discovered boundary span whose own token cost is
at most `max_tokens` is placed contiguously within one chunk's original
content, provided its start line is reached by the scan: it is the unique
discovered boundary on its start line and no earlier-starting discovered
span reaches its start line (a span nested inside a larger span — e.g. a
method inside an oversized class — loses both guarantees and can be split;
see the counterexample). -/
theorem C7_span_intact_amended (est : String → Int) (lines : List String)
    (bs : List Boundary) (max_tokens : Int) (b : Boundary)
    (hwf : ∀ c ∈ bs, c.1 ≤ c.2.1)
    (hmem : b ∈ bs)
    (huniq : ∀ c ∈ bs, c.1 = b.1 → c = b)
    (hearlier : ∀ c ∈ bs, c.1 < b.1 → c.2.1 < b.1)
    (hcost : est (joinLines (boundarySpan lines b)) ≤ max_tokens)
    (hlt : b.1 < lines.length) :
    ∃ c ∈ createChunksCore est lines bs max_tokens,
      ∃ pre post, c.content = pre ++ boundarySpan lines b ++ post := by
  apply backfillTotals_seg
  exact packLoop_reach est lines bs max_tokens b hwf hmem huniq hearlier hcost hlt
    lines.length 0 ⟨[], [], 0, 1, 0⟩ (by omega) (by omega)

/-- Witness for the amended C7: a two-line function boundary of cost 19
within a 30-token budget lands contiguously inside a chunk of the packer's
output. -/
theorem C7_span_intact_amended_witness :
    estLen (joinLines (boundarySpan ["def f():", "  return 1", "x = 2"]
      (0, 1, "function", "f"))) ≤ (30 : Int) ∧
    ((0, 1, "function", "f") : Boundary).1 <
      (["def f():", "  return 1", "x = 2"] : List String).length ∧
    ∃ c ∈ createChunksCore estLen ["def f():", "  return 1", "x = 2"]
        [(0, 1, "function", "f")] 30,
      ∃ pre post, c.content = pre ++ boundarySpan ["def f():", "  return 1", "x = 2"]
        (0, 1, "function", "f") ++ post := by
  refine ⟨by decide, by decide, ?_⟩
  exact C7_span_intact_amended estLen ["def f():", "  return 1", "x = 2"]
    [(0, 1, "function", "f")] 30 (0, 1, "function", "f")
    (by decide) (by decide) (by decide) (by decide) (by decide) (by decide)

/-- Claim C7, counterexample: in a four-line class whose span (cost 74)
exceeds `max_tokens = 30`, the discovered method boundary `C.m` spanning
lines 2–3 has cost 24 ≤ 30, yet `_split_large_boundary` cuts the class
between those two lines, so the method's span is contiguous in no chunk of
the output. -/
theorem C7_counterexample :
    ((2, 3, "method", "C.m") : Boundary) ∈
      ([(0, 3, "class", "C"), (2, 3, "method", "C.m")] : List Boundary) ∧
    estLen (joinLines (boundarySpan
      ["class C:", "  aaaaaaaaaaaaaaaaaaaaaaaaaaaaaaaaaaaaaa", "  def m():", "    return 42"]
      (2, 3, "method", "C.m"))) ≤ (30 : Int) ∧
    (30 : Int) < estLen (joinLines (boundarySpan
      ["class C:", "  aaaaaaaaaaaaaaaaaaaaaaaaaaaaaaaaaaaaaa", "  def m():", "    return 42"]
      (0, 3, "class", "C"))) ∧
    ¬ ∃ c ∈ createChunksCore estLen
        ["class C:", "  aaaaaaaaaaaaaaaaaaaaaaaaaaaaaaaaaaaaaa", "  def m():", "    return 42"]
        [(0, 3, "class", "C"), (2, 3, "method", "C.m")] 30,
      ∃ pre post, c.content = pre ++ boundarySpan
        ["class C:", "  aaaaaaaaaaaaaaaaaaaaaaaaaaaaaaaaaaaaaa", "  def m():", "    return 42"]
        (2, 3, "method", "C.m") ++ post := by
  refine ⟨by decide, by decide, by decide, ?_⟩
  rintro ⟨c, hcm, pre, post, heq⟩
  have hAll : (createChunksCore estLen
      ["class C:", "  aaaaaaaaaaaaaaaaaaaaaaaaaaaaaaaaaaaaaa", "  def m():", "    return 42"]
      [(0, 3, "class", "C"), (2, 3, "method", "C.m")] 30).all
        (fun c => !(hasSeg (boundarySpan
          ["class C:", "  aaaaaaaaaaaaaaaaaaaaaaaaaaaaaaaaaaaaaa", "  def m():", "    return 42"]
          (2, 3, "method", "C.m")) c.content)) = true := by decide
  have hfalse := List.all_eq_true.1 hAll c hcm
  have htrue : hasSeg (boundarySpan
      ["class C:", "  aaaaaaaaaaaaaaaaaaaaaaaaaaaaaaaaaaaaaa", "  def m():", "    return 42"]
      (2, 3, "method", "C.m")) c.content = true :=
    (hasSeg_iff _ _).2 ⟨pre, post, heq⟩
  rw [htrue] at hfalse
  simp at hfalse
